import Mathlib

/-!
Shallow embedding of the garando source-position and macro-hygiene core
(`garando_pos/src/hygiene.rs` and `garando_pos/src/lib.rs`).

`Mark` and `SyntaxContext` are `u32` index handles into append-only arenas;
the arenas stay far below `2^32`, so they are modelled as `Nat` indices.
The thread-local `HygieneData` store is made an explicit state value that
every operation takes and (when it mutates) returns.  Rust `HashMap`s are
modelled as association lists whose lookup returns the first matching entry
(inserting by consing therefore has Rust's overwrite semantics).  Rust's
unbounded `while` loops are modelled with an explicit fuel parameter; each
wrapper picks a fuel that suffices in every well-formed store (the walked
index strictly decreases), and returns the Rust loop's result via `Option`
so that fuel exhaustion is never mistaken for an answer.
-/

namespace Garando

/-- Byte-range plus hygiene context, from `Span` in `garando_pos/src/lib.rs`.
`ctxt` is the `SyntaxContext` index. -/
structure Span where
  lo : Nat
  hi : Nat
  ctxt : Nat
deriving DecidableEq, Repr, Inhabited

/-- Model of `SyntaxContext::empty()` (`NO_EXPANSION`): the fixed index 0. -/
def SyntaxContext.empty : Nat := 0

/-- The dummy span `DUMMY_SP` (`lo = hi = 0`, empty context). -/
def DUMMY_SP : Span := { lo := 0, hi := 0, ctxt := 0 }

/-- Model of `Span::source_equal`: byte-range equality, ignoring the context. -/
def source_equal (a b : Span) : Bool :=
  a.lo == b.lo && a.hi == b.hi

/-- Model of `Span::to`: joins two spans; if `end`'s context is empty the result keeps
`end`'s (empty) context, otherwise it keeps `self`'s context. -/
def Span.to (s e : Span) : Span :=
  if e.ctxt = SyntaxContext.empty then { lo := s.lo, hi := e.hi, ctxt := e.ctxt }
  else { lo := s.lo, hi := e.hi, ctxt := s.ctxt }

/-- Model of `ExpnFormat` from `hygiene.rs`; the `Symbol` payload is a `Nat`
interner index. -/
inductive ExpnFormat where
  | MacroAttribute (s : Nat)
  | MacroBang (s : Nat)
  | CompilerDesugaring (s : Nat)
deriving DecidableEq, Repr, Inhabited

/-- Model of `NameAndSpan::name`: the symbol carried by the format. -/
def ExpnFormat.name : ExpnFormat → Nat
  | .MacroAttribute s => s
  | .MacroBang s => s
  | .CompilerDesugaring s => s

/-- Model of `NameAndSpan` from `hygiene.rs`. -/
structure NameAndSpan where
  format : ExpnFormat
  allow_internal_unstable : Bool
  span : Option Span
deriving DecidableEq, Repr, Inhabited

/-- Model of `ExpnInfo` from `hygiene.rs`. -/
structure ExpnInfo where
  call_site : Span
  callee : NameAndSpan
deriving DecidableEq, Repr, Inhabited

/-- Model of `MarkData` from `hygiene.rs`; `parent` is a `Mark` index. -/
structure MarkData where
  parent : Nat
  modern : Bool
  expn_info : Option ExpnInfo
deriving DecidableEq, Repr, Inhabited

/-- Model of `SyntaxContextData` from `hygiene.rs`; all three fields are indices. -/
structure SyntaxContextData where
  outer_mark : Nat
  prev_ctxt : Nat
  modern : Nat
deriving DecidableEq, Repr, Inhabited

/-- The thread-local `HygieneData` store: the two append-only arenas plus
the two hash maps (as association lists, first match wins). -/
structure HygieneData where
  marks : List MarkData
  syntax_contexts : List SyntaxContextData
  markings : List ((Nat × Nat) × Nat)
  gensym_to_ctxt : List (Nat × Nat)
deriving DecidableEq, Repr, Inhabited

/-- Model of `HygieneData::new`: one default mark (the root) and one default
context (the empty context), empty maps. -/
def HygieneData.new : HygieneData :=
  { marks := [default]
    syntax_contexts := [default]
    markings := []
    gensym_to_ctxt := [] }

/-- Arena read `data.marks[m]`.  Rust panics on an out-of-bounds index;
theorems only ever use this on indices shown (or assumed) in bounds, where
`getD` agrees with the Rust read. -/
def getMark (st : HygieneData) (m : Nat) : MarkData :=
  st.marks.getD m default

/-- Arena read `data.syntax_contexts[c]`, same convention as `getMark`. -/
def getCtxt (st : HygieneData) (c : Nat) : SyntaxContextData :=
  st.syntax_contexts.getD c default

/-- First-match lookup in an association list; models `HashMap::get`. -/
def lookupPairs {α β : Type} [DecidableEq α] : List (α × β) → α → Option β
  | [], _ => none
  | (k, v) :: rest, key => if k = key then some v else lookupPairs rest key

/-- Model of `Mark::root()`: the fixed index 0. -/
def Mark.root : Nat := 0

/-- Model of `Mark::fresh(parent)`: push a new `MarkData` (not modern, no expansion
info) and return its index together with the grown store. -/
def Mark.fresh (st : HygieneData) (parent : Nat) : Nat × HygieneData :=
  (st.marks.length,
   { st with marks := st.marks ++ [{ parent := parent, modern := false, expn_info := none }] })

/-- Fuelled walk of `Mark::is_descendant_of`: from `s`, return true the
moment `ancestor` is reached, false when root is passed without a match.
`none` means the fuel ran out (never happens at the wrapper's fuel in a
well-formed store). -/
def isDescFuel (st : HygieneData) : Nat → Nat → Nat → Option Bool
  | 0, _, _ => none
  | fuel + 1, s, ancestor =>
    if s = ancestor then some true
    else if s = 0 then some false
    else isDescFuel st fuel (getMark st s).parent ancestor

/-- Model of `Mark::is_descendant_of`.  Fuel `s + 1` suffices because parent indices
strictly decrease along the walk in a well-formed store. -/
def is_descendant_of (st : HygieneData) (s ancestor : Nat) : Bool :=
  (isDescFuel st (s + 1) s ancestor).getD false

/-- The sequence of marks visited by the `is_descendant_of` walk starting
at `s` (including `s` itself and the final root), fuelled like the walk. -/
def chainFuel (st : HygieneData) : Nat → Nat → List Nat
  | 0, s => [s]
  | fuel + 1, s => if s = 0 then [0] else s :: chainFuel st fuel (getMark st s).parent

/-- The ancestor chain of mark `s` (itself, its parents, down to root). -/
def ancestorChain (st : HygieneData) (s : Nat) : List Nat :=
  chainFuel st (s + 1) s

/-- Model of `SyntaxContext::outer`: the outer mark of a context. -/
def outer (st : HygieneData) (c : Nat) : Nat :=
  (getCtxt st c).outer_mark

/-- Model of `SyntaxContext::remove_mark`: returns the outer mark and the new value
of `self` (`prev_ctxt`); the store itself is not changed. -/
def remove_mark (st : HygieneData) (c : Nat) : Nat × Nat :=
  ((getCtxt st c).outer_mark, (getCtxt st c).prev_ctxt)

/-- Model of `clear_markings()`: drop the memoization cache, keep the arenas. -/
def clear_markings (st : HygieneData) : HygieneData :=
  { st with markings := [] }

/-- The `markings.entry(key).or_insert_with(...)` pattern of `apply_mark`:
look the key up in the cache; on a miss, push the given context record and
cache its (pre-push) index under the key. -/
def or_insert_ctxt (st : HygieneData) (key : Nat × Nat) (d : SyntaxContextData) :
    Nat × HygieneData :=
  match lookupPairs st.markings key with
  | some v => (v, st)
  | none =>
    (st.syntax_contexts.length,
     { st with
       syntax_contexts := st.syntax_contexts ++ [d]
       markings := (key, st.syntax_contexts.length) :: st.markings })

/-- Model of `SyntaxContext::apply_mark`: extend `self` with `mark`.  Re-applying
the current outer mark cancels to `prev_ctxt`; otherwise the modern
projection is computed (creating a table entry when `mark` is modern and
the `(modern, mark)` marking is absent — that entry's `modern` field is
its own index) and the `(self, mark)` marking is looked up or created.
Returns the resulting context and the new store. -/
def apply_mark (st : HygieneData) (self mark : Nat) : Nat × HygieneData :=
  let ctxt_data := getCtxt st self
  if mark = ctxt_data.outer_mark then (ctxt_data.prev_ctxt, st)
  else
    let step1 : Nat × HygieneData :=
      if (getMark st mark).modern then
        or_insert_ctxt st (ctxt_data.modern, mark)
          { outer_mark := mark, prev_ctxt := ctxt_data.modern
            modern := st.syntax_contexts.length }
      else (ctxt_data.modern, st)
    or_insert_ctxt step1.2 (self, mark)
      { outer_mark := mark, prev_ctxt := self, modern := step1.1 }

/-- Fuelled `SyntaxContext::adjust` loop: strip the outermost mark while
`expansion` is not a descendant of the current outer mark; the result is
`(last stripped mark if any, final context)`. -/
def adjustFuel (st : HygieneData) : Nat → Nat → Nat → Option (Option Nat × Nat)
  | 0, _, _ => none
  | fuel + 1, self, expansion =>
    if is_descendant_of st expansion (outer st self) then some (none, self)
    else
      let r := remove_mark st self
      match adjustFuel st fuel r.2 expansion with
      | none => none
      | some (none, s') => some (some r.1, s')
      | some (some m, s') => some (some m, s')

/-- Model of `SyntaxContext::adjust`.  Fuel `self + 1` suffices because `prev_ctxt`
indices strictly decrease in a well-formed store and the loop exits at the
empty context (whose outer mark is root). -/
def adjust (st : HygieneData) (self expansion : Nat) : Option Nat × Nat :=
  (adjustFuel st (self + 1) self expansion).getD (none, self)

/-- Fuelled `SyntaxContext::glob_adjust` loop, carrying the running
`scope`.  Each iteration strips a mark from `glob_ctxt`, then from `self`,
failing (`(none, mutated self)`) when they disagree; after the loop a plain
`adjust` of `self` must strip nothing. -/
def globAdjustFuel (st : HygieneData) :
    Nat → Option Nat → Nat → Nat → Nat → Option (Option (Option Nat) × Nat)
  | 0, _, _, _, _ => none
  | fuel + 1, scope, self, expansion, glob_ctxt =>
    if is_descendant_of st expansion (outer st glob_ctxt) then
      let r := adjust st self expansion
      match r.1 with
      | some _ => some (none, r.2)
      | none => some (some scope, r.2)
    else
      let g := remove_mark st glob_ctxt
      let s := remove_mark st self
      if s.1 ≠ g.1 then some (none, s.2)
      else globAdjustFuel st fuel (some g.1) s.2 expansion g.2

/-- Model of `SyntaxContext::glob_adjust`: result is `(outcome, final self)`, where
the outcome is `none` on failure and `some scope` on success. -/
def glob_adjust (st : HygieneData) (self expansion glob_ctxt : Nat) :
    Option (Option Nat) × Nat :=
  (globAdjustFuel st (glob_ctxt + 1) none self expansion glob_ctxt).getD (none, self)

/-- A macro backtrace entry, from `MacroBacktrace` in `lib.rs`. -/
structure MacroBacktrace where
  call_site : Span
  macro_decl_name : String
  def_site_span : Option Span
deriving DecidableEq, Repr, Inhabited

/-- The entry `macro_backtrace` pushes for one expansion level; the symbol
is rendered by its interner index, standing in for its interned string. -/
def mkBacktraceEntry (info : ExpnInfo) : MacroBacktrace :=
  let parts : String × String :=
    match info.callee.format with
    | .MacroAttribute _ => ("#[", "]")
    | .MacroBang _ => ("", "!")
    | .CompilerDesugaring _ => ("desugaring of `", "`")
  { call_site := info.call_site
    macro_decl_name := parts.1 ++ toString info.callee.format.name ++ parts.2
    def_site_span := info.callee.span }

/-- Fuelled `Span::macro_backtrace` loop: at each level, look up the
expansion info of the outer mark of the current span's context; emit the
entry unless its call site is byte-range-equal to `prev_span`; then set
`prev_span` to the current span (whether or not the entry was emitted) and
continue from the call site. -/
def btAux (st : HygieneData) : Nat → Span → Span → List MacroBacktrace
  | 0, _, _ => []
  | fuel + 1, prev_span, s =>
    match (getMark st (outer st s.ctxt)).expn_info with
    | none => []
    | some info =>
      let rest := btAux st fuel s info.call_site
      if source_equal info.call_site prev_span then rest
      else mkBacktraceEntry info :: rest

/-- Model of `Span::macro_backtrace`.  In a reachable store the expansion chain is
acyclic and each level consumes a distinct mark, so `marks.length + 1`
fuel covers the whole walk. -/
def macro_backtrace (st : HygieneData) (s : Span) : List MacroBacktrace :=
  btAux st (st.marks.length + 1) DUMMY_SP s

/-- A serde value, reduced to what the `SyntaxContext` impls touch:
`serialize_unit` produces the unit value. -/
inductive SerValue where
  | unit
  | other
deriving DecidableEq, Repr

/-- Model of `Serialize for SyntaxContext`: every context serializes as unit. -/
def serializeSyntaxContext (_c : Nat) : SerValue :=
  SerValue.unit

/-- Model of `Deserialize for SyntaxContext`: a unit payload maps to the empty
context; anything else is a deserializer error. -/
def deserializeSyntaxContext : SerValue → Except String Nat
  | SerValue.unit => Except.ok SyntaxContext.empty
  | SerValue.other => Except.error "expected unit"

/-- Model of `Ident` from `symbol.rs` (name plus hygiene context). -/
structure Ident where
  name : Nat
  ctxt : Nat
deriving DecidableEq, Repr, Inhabited

/-- Modelled from the spec: the string interner of `symbol.rs`, which is
not under `src/`.  A `Symbol` is an index into the interned-string list. -/
structure Interner where
  strings : List String
deriving DecidableEq, Repr, Inhabited

/-- Modelled from the spec: `Symbol::gensymed` creates a fresh interned
symbol derived from the given symbol's name (a new index carrying the same
string). -/
def Interner.gensymed (it : Interner) (s : Nat) : Nat × Interner :=
  (it.strings.length, { strings := it.strings ++ [it.strings.getD s ""] })

/-- Modelled from the spec: `Symbol::interned` returns the canonical
interned symbol for this symbol's string (the first index carrying it). -/
def Interner.interned (it : Interner) (s : Nat) : Nat :=
  it.strings.indexOf (it.strings.getD s "")

/-- Model of `Symbol::from_ident`: gensym the identifier's name, record
`gensym ↦ ident.ctxt` in the gensym map, return the gensym (with the
updated interner and store). -/
def from_ident (st : HygieneData) (it : Interner) (ident : Ident) :
    Nat × Interner × HygieneData :=
  let g := it.gensymed ident.name
  (g.1, g.2, { st with gensym_to_ctxt := (g.1, ident.ctxt) :: st.gensym_to_ctxt })

/-- Model of `Symbol::to_ident`: look up the recorded context; if absent, fall back
to `Ident::with_empty_ctxt` (modelled from the spec: the identifier with
this symbol as name and the empty context). -/
def to_ident (st : HygieneData) (it : Interner) (s : Nat) : Ident :=
  match lookupPairs st.gensym_to_ctxt s with
  | some c => { name := it.interned s, ctxt := c }
  | none => { name := s, ctxt := SyntaxContext.empty }

/-- Well-formedness of the mark arena: nonempty, the root's parent is
root, and every other parent index strictly precedes its mark.  Reachable
stores satisfy this: `fresh` records parents that already exist. -/
def marksWF (st : HygieneData) : Prop :=
  0 < st.marks.length ∧ (getMark st 0).parent = 0 ∧
    ∀ i < st.marks.length, 0 < i → (getMark st i).parent < i

/-- Well-formedness of the markings cache: every entry `((c, m), v)` names
a context `v` in bounds whose record is `outer_mark = m`, `prev_ctxt = c`.
Reachable stores satisfy this: entries are only ever inserted together
with (or pointing at) a context of exactly that shape. -/
def markingsWF (st : HygieneData) : Prop :=
  ∀ p ∈ st.markings,
    p.2 < st.syntax_contexts.length ∧
      (getCtxt st p.2).outer_mark = p.1.2 ∧ (getCtxt st p.2).prev_ctxt = p.1.1

instance (st : HygieneData) : Decidable (marksWF st) := by
  unfold marksWF
  infer_instance

instance (st : HygieneData) : Decidable (markingsWF st) := by
  unfold markingsWF
  infer_instance

/-! ### Supporting lemmas -/

lemma getD_append_self {α : Type} (l : List α) (x d : α) :
    (l ++ [x]).getD l.length d = x := by
  rw [List.getD_append_right _ _ _ _ (Nat.le_refl _), Nat.sub_self]
  rfl

lemma lookupPairs_mem {α β : Type} [DecidableEq α] :
    ∀ (l : List (α × β)) (k : α) (v : β), lookupPairs l k = some v → (k, v) ∈ l := by
  intro l
  induction l with
  | nil => intro k v h; simp [lookupPairs] at h
  | cons p rest ih =>
    intro k v h
    rw [lookupPairs] at h
    by_cases hk : p.1 = k
    · rw [if_pos hk] at h
      have hpv : p = (k, v) := by
        obtain ⟨p1, p2⟩ := p
        simp only [Option.some_inj] at h
        simp_all
      rw [← hpv]
      exact List.mem_cons_self _ _
    · rw [if_neg hk] at h
      exact List.mem_cons_of_mem _ (ih k v h)

lemma or_insert_ctxt_spec (st : HygieneData) (key : Nat × Nat) (d : SyntaxContextData)
    (hw : markingsWF st) (hdo : d.outer_mark = key.2) (hdp : d.prev_ctxt = key.1) :
    markingsWF (or_insert_ctxt st key d).2 ∧
      (getCtxt (or_insert_ctxt st key d).2 (or_insert_ctxt st key d).1).outer_mark = key.2 ∧
      (getCtxt (or_insert_ctxt st key d).2 (or_insert_ctxt st key d).1).prev_ctxt = key.1 := by
  rw [or_insert_ctxt]
  rcases h : lookupPairs st.markings key with _ | v
  · refine ⟨?_, ?_, ?_⟩
    · intro p hp
      rcases List.mem_cons.mp hp with hp | hp
      · subst hp
        refine ⟨by simp, ?_, ?_⟩ <;>
          simp only [getCtxt, getD_append_self, hdo, hdp]
      · obtain ⟨hlt, ho, hpr⟩ := hw p hp
        refine ⟨by simpa using Nat.lt_succ_of_lt hlt, ?_, ?_⟩
        · simp only [getCtxt] at ho ⊢
          rw [List.getD_append _ _ _ _ hlt]
          exact ho
        · simp only [getCtxt] at hpr ⊢
          rw [List.getD_append _ _ _ _ hlt]
          exact hpr
    · simp only [getCtxt, getD_append_self, hdo]
    · simp only [getCtxt, getD_append_self, hdp]
  · obtain ⟨hlt, ho, hpr⟩ := hw (key, v) (lookupPairs_mem _ _ _ h)
    exact ⟨hw, ho, hpr⟩

lemma apply_mark_spec (st : HygieneData) (c m : Nat) (hw : markingsWF st)
    (hne : m ≠ (getCtxt st c).outer_mark) :
    markingsWF (apply_mark st c m).2 ∧
      (getCtxt (apply_mark st c m).2 (apply_mark st c m).1).outer_mark = m ∧
      (getCtxt (apply_mark st c m).2 (apply_mark st c m).1).prev_ctxt = c := by
  rw [apply_mark]
  simp only [if_neg hne]
  by_cases hmod : (getMark st m).modern
  · simp only [if_pos hmod]
    have h1 := or_insert_ctxt_spec st ((getCtxt st c).modern, m)
      { outer_mark := m, prev_ctxt := (getCtxt st c).modern
        modern := st.syntax_contexts.length } hw rfl rfl
    exact or_insert_ctxt_spec _ (c, m) _ h1.1 rfl rfl
  · simp only [if_neg hmod]
    exact or_insert_ctxt_spec _ (c, m) _ hw rfl rfl

lemma isDescFuel_mono (st : HygieneData) :
    ∀ (f f' s a : Nat) (b : Bool), f ≤ f' → isDescFuel st f s a = some b →
      isDescFuel st f' s a = some b := by
  intro f
  induction f with
  | zero => intro f' s a b _ h; simp [isDescFuel] at h
  | succ f ih =>
    intro f' s a b hle h
    obtain ⟨g, rfl⟩ : ∃ g, f' = g + 1 := ⟨f' - 1, by omega⟩
    rw [isDescFuel] at h ⊢
    by_cases h1 : s = a
    · simpa [h1] using h
    · by_cases h2 : s = 0
      · rw [if_neg h1, if_pos h2] at h ⊢; exact h
      · rw [if_neg h1, if_neg h2] at h ⊢
        exact ih g _ a b (by omega) h

lemma isDescFuel_complete (st : HygieneData) (hw : marksWF st) :
    ∀ s, s < st.marks.length → ∀ a, ∃ b, isDescFuel st (s + 1) s a = some b := by
  intro s
  induction s using Nat.strong_induction_on with
  | _ s ih =>
    intro hs a
    rw [isDescFuel]
    by_cases h1 : s = a
    · exact ⟨true, by rw [if_pos h1]⟩
    · by_cases h2 : s = 0
      · exact ⟨false, by rw [if_neg h1, if_pos h2]⟩
      · rw [if_neg h1, if_neg h2]
        have hp : (getMark st s).parent < s := hw.2.2 s hs (Nat.pos_of_ne_zero h2)
        obtain ⟨b, hb⟩ := ih _ hp (Nat.lt_trans hp hs) a
        exact ⟨b, isDescFuel_mono st _ _ _ _ _ (by omega) hb⟩

lemma desc_unfold (st : HygieneData) (hw : marksWF st) (s a : Nat)
    (hs : s < st.marks.length) (h1 : s ≠ a) (h2 : s ≠ 0) :
    is_descendant_of st s a = is_descendant_of st (getMark st s).parent a := by
  have hp : (getMark st s).parent < s := hw.2.2 s hs (Nat.pos_of_ne_zero h2)
  obtain ⟨b, hb⟩ := isDescFuel_complete st hw _ (Nat.lt_trans hp hs) a
  have hb' : isDescFuel st s (getMark st s).parent a = some b :=
    isDescFuel_mono st _ _ _ _ _ (by omega) hb
  rw [is_descendant_of, is_descendant_of, isDescFuel, if_neg h1, if_neg h2, hb, hb']

lemma chainFuel_stable (st : HygieneData) (hw : marksWF st) :
    ∀ s, s < st.marks.length → ∀ f, s + 1 ≤ f → chainFuel st f s = chainFuel st (s + 1) s := by
  intro s
  induction s using Nat.strong_induction_on with
  | _ s ih =>
    intro hs f hf
    obtain ⟨g, rfl⟩ : ∃ g, f = g + 1 := ⟨f - 1, by omega⟩
    by_cases h2 : s = 0
    · rw [chainFuel, chainFuel, if_pos h2, if_pos h2]
    · have hp : (getMark st s).parent < s := hw.2.2 s hs (Nat.pos_of_ne_zero h2)
      rw [chainFuel, chainFuel, if_neg h2, if_neg h2,
        ih _ hp (Nat.lt_trans hp hs) g (by omega),
        ih _ hp (Nat.lt_trans hp hs) s (by omega)]

lemma desc_iff_chain (st : HygieneData) (hw : marksWF st) :
    ∀ s, s < st.marks.length → ∀ a,
      (is_descendant_of st s a = true ↔ a ∈ ancestorChain st s) := by
  intro s
  induction s using Nat.strong_induction_on with
  | _ s ih =>
    intro hs a
    by_cases h1 : s = a
    · subst h1
      constructor
      · intro _
        rw [ancestorChain, chainFuel]
        by_cases h2 : s = 0
        · rw [if_pos h2]; subst h2; exact List.mem_singleton.mpr rfl
        · rw [if_neg h2]; exact List.mem_cons_self _ _
      · intro _
        rw [is_descendant_of, isDescFuel, if_pos rfl]
        rfl
    · by_cases h2 : s = 0
      · subst h2
        rw [is_descendant_of, ancestorChain, isDescFuel, chainFuel, if_neg h1, if_pos rfl,
          if_pos rfl]
        simp only [Option.getD_some, List.mem_singleton]
        constructor
        · intro h
          simp at h
        · intro h
          exact absurd h.symm h1
      · have hp : (getMark st s).parent < s := hw.2.2 s hs (Nat.pos_of_ne_zero h2)
        rw [desc_unfold st hw s a hs h1 h2]
        rw [ancestorChain, chainFuel, if_neg h2,
          chainFuel_stable st hw _ (Nat.lt_trans hp hs) s (by omega)]
        rw [List.mem_cons]
        constructor
        · intro h
          exact Or.inr ((ih _ hp (Nat.lt_trans hp hs) a).mp h)
        · intro h
          rcases h with h | h
          · exact absurd h.symm h1
          · exact (ih _ hp (Nat.lt_trans hp hs) a).mpr h

lemma chain_mem_root (st : HygieneData) (hw : marksWF st) :
    ∀ s, s < st.marks.length → Mark.root ∈ ancestorChain st s := by
  intro s
  induction s using Nat.strong_induction_on with
  | _ s ih =>
    intro hs
    by_cases h2 : s = 0
    · rw [ancestorChain, chainFuel, if_pos h2]
      exact List.mem_singleton.mpr rfl
    · have hp : (getMark st s).parent < s := hw.2.2 s hs (Nat.pos_of_ne_zero h2)
      rw [ancestorChain, chainFuel, if_neg h2,
        chainFuel_stable st hw _ (Nat.lt_trans hp hs) s (by omega)]
      exact List.mem_cons_of_mem _ (ih _ hp (Nat.lt_trans hp hs))

lemma desc_root (st : HygieneData) (hw : marksWF st) (s : Nat) (hs : s < st.marks.length) :
    is_descendant_of st s Mark.root = true :=
  (desc_iff_chain st hw s hs Mark.root).mpr (chain_mem_root st hw s hs)

lemma desc_refl (st : HygieneData) (m : Nat) : is_descendant_of st m m = true := by
  rw [is_descendant_of, isDescFuel, if_pos rfl]
  rfl

lemma marksWF_fresh (st : HygieneData) (hw : marksWF st) (parent : Nat)
    (hp : parent < st.marks.length) : marksWF (Mark.fresh st parent).2 := by
  refine ⟨by simp [Mark.fresh], ?_, ?_⟩
  · simp only [Mark.fresh, getMark, List.getD_append _ _ _ _ hw.1]
    exact hw.2.1
  · intro i hi hipos
    simp only [Mark.fresh, List.length_append, List.length_singleton] at hi
    rcases Nat.lt_succ_iff_lt_or_eq.mp hi with hi | hi
    · simpa only [Mark.fresh, getMark, List.getD_append _ _ _ _ hi] using hw.2.2 i hi hipos
    · subst hi
      simpa only [Mark.fresh, getMark, getD_append_self] using hp

lemma apply_mark_cancel (st : HygieneData) (c m : Nat)
    (h : m = (getCtxt st c).outer_mark) :
    apply_mark st c m = ((getCtxt st c).prev_ctxt, st) := by
  simp only [apply_mark]
  rw [if_pos h]

lemma btAux_step_some (st : HygieneData) (fuel : Nat) (prev s : Span) (info : ExpnInfo)
    (h : (getMark st (outer st s.ctxt)).expn_info = some info) :
    btAux st (fuel + 1) prev s =
      if source_equal info.call_site prev then btAux st fuel s info.call_site
      else mkBacktraceEntry info :: btAux st fuel s info.call_site := by
  rw [btAux, h]

lemma btAux_step_none (st : HygieneData) (fuel : Nat) (prev s : Span)
    (h : (getMark st (outer st s.ctxt)).expn_info = none) :
    btAux st (fuel + 1) prev s = [] := by
  rw [btAux, h]

/-! ### Concrete stores used by witnesses and counterexamples -/

/-- The store of a fresh session after one `Mark::fresh(root)`. -/
def st1 : HygieneData := (Mark.fresh HygieneData.new Mark.root).2

/-- The mark created by that `fresh` call (index 1). -/
def mk1 : Nat := (Mark.fresh HygieneData.new Mark.root).1

/-- The result of applying `mk1` to the empty context in `st1`: the
one-mark context (index 1) and the grown store. -/
def capp : Nat × HygieneData := apply_mark st1 SyntaxContext.empty mk1

/-- Store `capp.2` after `clear_markings()`. -/
def stClr : HygieneData := clear_markings capp.2

/-- A store with marks `m1 = 1`, `m2 = 2` (both children of root), the
one-mark context `1 = [m1]` and the two-mark context `2 = [m1, m2]`. -/
def adjStore : HygieneData :=
  { marks := [default,
      { parent := 0, modern := false, expn_info := none },
      { parent := 0, modern := false, expn_info := none }]
    syntax_contexts := [default,
      { outer_mark := 1, prev_ctxt := 0, modern := 0 },
      { outer_mark := 2, prev_ctxt := 1, modern := 0 }]
    markings := []
    gensym_to_ctxt := [] }

/-- A store with marks `mA = 1`, `mB = 2` (children of root) and the two
one-mark contexts `1 = [mA]`, `2 = [mB]`. -/
def gaStore : HygieneData :=
  { marks := [default,
      { parent := 0, modern := false, expn_info := none },
      { parent := 0, modern := false, expn_info := none }]
    syntax_contexts := [default,
      { outer_mark := 1, prev_ctxt := 0, modern := 0 },
      { outer_mark := 2, prev_ctxt := 0, modern := 0 }]
    markings := []
    gensym_to_ctxt := [] }

/-- Callee metadata for the backtrace stores (a `MacroBang` with the given
symbol, nothing else recorded). -/
def btCallee (n : Nat) : NameAndSpan :=
  { format := ExpnFormat.MacroBang n, allow_internal_unstable := false, span := none }

/-- A store describing three nested expansions: mark 3 (innermost) has
call site `cs0`, mark 2 has call site `cs1`, mark 1 has call site `cs2`.
Context `i` is the one-mark context of mark `i`; a span with context 3
walks the three levels in order. -/
def btStore (cs0 cs1 cs2 : Span) : HygieneData :=
  { marks := [default,
      { parent := 0, modern := false
        expn_info := some { call_site := cs2, callee := btCallee 1 } },
      { parent := 0, modern := false
        expn_info := some { call_site := cs1, callee := btCallee 2 } },
      { parent := 0, modern := false
        expn_info := some { call_site := cs0, callee := btCallee 3 } }]
    syntax_contexts := [default,
      { outer_mark := 1, prev_ctxt := 0, modern := 0 },
      { outer_mark := 2, prev_ctxt := 0, modern := 0 },
      { outer_mark := 3, prev_ctxt := 0, modern := 0 }]
    markings := []
    gensym_to_ctxt := [] }

/-! ### Claim theorems -/

/-- Claim C1, counterexample: for the one-mark context `capp.1 = [mk1]`
and the mark `mk1` itself, `apply_mark` cancels to the empty context, so
the subsequent `remove_mark` yields `(root, empty)`, not `(mk1, capp.1)`.
The claimed universal cancellation law is therefore false. -/
theorem C1_cex :
    remove_mark (apply_mark capp.2 capp.1 mk1).2 (apply_mark capp.2 capp.1 mk1).1 ≠
      (mk1, capp.1) := by
  decide

/-- Claim C1 as amended: in any store whose markings cache is well-formed,
for every context `c` and mark `m` that is NOT `c`'s outer mark (i.e. the
non-cancellation case), `c.apply_mark(m).remove_mark()` returns `m` and
leaves the context equal to `c`. -/
theorem C1_apply_then_remove (st : HygieneData) (c m : Nat) (hw : markingsWF st)
    (hne : m ≠ (getCtxt st c).outer_mark) :
    remove_mark (apply_mark st c m).2 (apply_mark st c m).1 = (m, c) := by
  obtain ⟨-, ho, hp⟩ := apply_mark_spec st c m hw hne
  rw [remove_mark, ho, hp]

/-- Claim C1 witness: the amended theorem applied in the store `st1` to
the empty context and mark `1`, with both hypotheses discharged. -/
theorem C1_witness :
    markingsWF st1 ∧ (1 : Nat) ≠ (getCtxt st1 SyntaxContext.empty).outer_mark ∧
      remove_mark (apply_mark st1 SyntaxContext.empty 1).2
        (apply_mark st1 SyntaxContext.empty 1).1 = (1, SyntaxContext.empty) :=
  ⟨by decide, by decide,
   C1_apply_then_remove st1 SyntaxContext.empty 1 (by decide) (by decide)⟩

/-- Claim C2, counterexample: after `clear_markings()` has dropped the
memoization cache, re-applying `mk1` twice to the one-mark context
`capp.1 = [mk1]` first cancels to the empty context and then allocates a
fresh context index, so the result differs from `capp.1`. -/
theorem C2_cex :
    (apply_mark (apply_mark stClr capp.1 mk1).2 (apply_mark stClr capp.1 mk1).1 mk1).1 ≠
      capp.1 := by
  decide

/-- Claim C2 as amended: in any store whose markings cache is well-formed,
for every context `c` and mark `m` that is NOT `c`'s outer mark, applying
`m` twice returns to `c` (the first application yields a context whose
outer mark is `m` and whose predecessor is `c`, and the second hits the
cancellation rule).  When `m` IS `c`'s outer mark the law can fail once
`clear_markings` has dropped the cache, as the counterexample shows. -/
theorem C2_double_apply (st : HygieneData) (c m : Nat) (hw : markingsWF st)
    (hne : m ≠ (getCtxt st c).outer_mark) :
    (apply_mark (apply_mark st c m).2 (apply_mark st c m).1 m).1 = c := by
  obtain ⟨-, ho, hp⟩ := apply_mark_spec st c m hw hne
  rw [apply_mark_cancel _ _ _ ho.symm, hp]

/-- Claim C2 witness: the amended theorem applied in the store `st1` to
the empty context and mark `1`, with both hypotheses discharged. -/
theorem C2_witness :
    markingsWF st1 ∧ (1 : Nat) ≠ (getCtxt st1 SyntaxContext.empty).outer_mark ∧
      (apply_mark (apply_mark st1 SyntaxContext.empty 1).2
        (apply_mark st1 SyntaxContext.empty 1).1 1).1 = SyntaxContext.empty :=
  ⟨by decide, by decide,
   C2_double_apply st1 SyntaxContext.empty 1 (by decide) (by decide)⟩

/-- Claim C3: `adjust` strips no mark and returns `None` when `expansion`
is already a descendant of the context's outer mark; and on a context
`c2 = [m1, m2]` (outer mark `m2`, predecessor the one-mark context
`c1 = [m1]`) with `expansion` a descendant of `m1` but not of `m2`,
exactly `m2` is stripped, `Some m2` is returned, and the context becomes
`c1`. -/
theorem C3_adjust_strips :
    (∀ (st : HygieneData) (c e : Nat),
       is_descendant_of st e (outer st c) = true → adjust st c e = (none, c)) ∧
    (∀ (st : HygieneData) (c1 c2 ma mb e : Nat),
       (getCtxt st c2).outer_mark = mb → (getCtxt st c2).prev_ctxt = c1 →
       (getCtxt st c1).outer_mark = ma →
       (getCtxt st c1).prev_ctxt = SyntaxContext.empty → c1 < c2 →
       is_descendant_of st e ma = true → is_descendant_of st e mb = false →
       adjust st c2 e = (some mb, c1)) := by
  constructor
  · intro st c e h
    rw [adjust, adjustFuel, if_pos h]
    rfl
  · intro st c1 c2 ma mb e h2o h2p h1o h1p h12 hda hdb
    have ho2 : outer st c2 = mb := h2o
    have ho1 : outer st c1 = ma := h1o
    have hr : remove_mark st c2 = (mb, c1) := by rw [remove_mark, h2o, h2p]
    obtain ⟨k, rfl⟩ : ∃ k, c2 = k + 1 := ⟨c2 - 1, by omega⟩
    have hinner : adjustFuel st (k + 1) c1 e = some (none, c1) := by
      rw [adjustFuel, if_pos (by rw [ho1]; exact hda)]
    rw [adjust, adjustFuel, if_neg (by rw [ho2, hdb]; simp)]
    simp only [hr, hinner]
    rfl

/-- Claim C3 witness: in `adjStore` (marks `1`, `2`, contexts `1 = [1]`,
`2 = [1, 2]`), both parts of the theorem applied concretely with every
hypothesis discharged: `adjust` on context `1` for expansion `1` strips
nothing, and on context `2` it strips exactly mark `2` down to context
`1`. -/
theorem C3_witness :
    adjust adjStore 1 1 = (none, 1) ∧ adjust adjStore 2 1 = (some 2, 1) :=
  ⟨C3_adjust_strips.1 adjStore 1 1 (by decide),
   C3_adjust_strips.2 adjStore 1 2 1 2 1 (by decide) (by decide) (by decide)
     (by decide) (by decide) (by decide) (by decide)⟩

/-- Claim C5: `Span::to` keeps `self.lo` and `end.hi`, takes `end`'s
(empty) context when `end.ctxt` is empty and `self`'s context otherwise;
including the two concrete tie-break instances from the spec. -/
theorem C5_span_to :
    (∀ a e : Span, e.ctxt = SyntaxContext.empty →
       Span.to a e = { lo := a.lo, hi := e.hi, ctxt := e.ctxt }) ∧
    (∀ a e : Span, e.ctxt ≠ SyntaxContext.empty →
       Span.to a e = { lo := a.lo, hi := e.hi, ctxt := a.ctxt }) ∧
    (∀ x : Nat, Span.to ⟨0, 5, x⟩ ⟨5, 10, SyntaxContext.empty⟩ =
       ⟨0, 10, SyntaxContext.empty⟩) ∧
    (∀ x y : Nat, y ≠ SyntaxContext.empty →
       Span.to ⟨0, 5, x⟩ ⟨5, 10, y⟩ = ⟨0, 10, x⟩) := by
  refine ⟨?_, ?_, ?_, ?_⟩
  · intro a e h
    rw [Span.to, if_pos h]
  · intro a e h
    rw [Span.to, if_neg h]
  · intro x
    simp [Span.to]
  · intro x y h
    simp [Span.to, h]

/-- Claim C5 witness: the theorem's context-dependent parts applied at
concrete spans with nonempty context `1` (for `X`) and `2` (for `Y`). -/
theorem C5_witness :
    Span.to ⟨0, 5, 1⟩ ⟨5, 10, 0⟩ = ⟨0, 10, 0⟩ ∧
      Span.to ⟨0, 5, 1⟩ ⟨5, 10, 2⟩ = ⟨0, 10, 1⟩ :=
  ⟨C5_span_to.1 ⟨0, 5, 1⟩ ⟨5, 10, 0⟩ rfl, C5_span_to.2.2.2 1 2 (by decide)⟩

/-- Claim C6, counterexample: `remove_mark` on the empty context in a
fresh store completes normally — it returns the root mark and leaves the
context empty (slot 0 of the context table is the default entry, so the
read is in bounds and nothing traps), contradicting the claim that the
operation does not complete normally. -/
theorem C6_cex :
    remove_mark HygieneData.new SyntaxContext.empty = (Mark.root, SyntaxContext.empty) := by
  decide

/-- Claim C6 as amended: in any store whose slot 0 is the default entry
(as every reachable store's is), `remove_mark` on the empty context
completes normally, returning the root mark and leaving the context
empty; the spec's prohibition is an unenforced caller contract, not a
trap. -/
theorem C6_remove_mark_empty (st : HygieneData)
    (h1 : (getCtxt st SyntaxContext.empty).outer_mark = Mark.root)
    (h2 : (getCtxt st SyntaxContext.empty).prev_ctxt = SyntaxContext.empty) :
    remove_mark st SyntaxContext.empty = (Mark.root, SyntaxContext.empty) := by
  rw [remove_mark, h1, h2]

/-- Claim C6 witness: the amended theorem applied to the fresh store with
both hypotheses discharged. -/
theorem C6_witness :
    (getCtxt HygieneData.new SyntaxContext.empty).outer_mark = Mark.root ∧
      (getCtxt HygieneData.new SyntaxContext.empty).prev_ctxt = SyntaxContext.empty ∧
      remove_mark HygieneData.new SyntaxContext.empty =
        (Mark.root, SyntaxContext.empty) :=
  ⟨rfl, rfl, C6_remove_mark_empty HygieneData.new rfl rfl⟩

/-- Claim C4, counterexample: three nested expansions in which the second
level's call site `(30, 40)` is byte-range-equal to the first level's
recorded call site `(30, 40)`, yet the backtrace emits entries for both
levels (three entries in all) — the code compares each level's call site
with the previous iteration's span, not with the preceding emitted
record, so the claimed collapse to one entry does not happen. -/
theorem C4_cex :
    source_equal ⟨30, 40, 1⟩ ⟨30, 40, 2⟩ = true ∧
      (macro_backtrace (btStore ⟨30, 40, 2⟩ ⟨30, 40, 1⟩ ⟨50, 60, 0⟩)
          ⟨10, 20, 3⟩).map MacroBacktrace.call_site =
        [⟨30, 40, 2⟩, ⟨30, 40, 1⟩, ⟨50, 60, 0⟩] := by
  constructor
  · rfl
  · rfl

/-- Claim C4 as amended: in `macro_backtrace`, a level is skipped exactly
when its call site is byte-range-equal to the span examined at the
immediately preceding iteration (the original span for the first emitted
level's successor), whether or not that level's entry was emitted; for
three nested expansions with call sites `cs0`, `cs1`, `cs2` walked from a
span `s0`, level 0 is compared against the dummy span, level 1 against
`s0`, and level 2 against `cs0` — equality of `cs1` with the recorded
`cs0` does not by itself suppress an entry. -/
theorem C4_backtrace_dedup (al ah bl bh cl ch dl dh : Nat) :
    macro_backtrace (btStore ⟨bl, bh, 2⟩ ⟨cl, ch, 1⟩ ⟨dl, dh, 0⟩) ⟨al, ah, 3⟩ =
      (if source_equal ⟨bl, bh, 2⟩ DUMMY_SP then [] else
        [mkBacktraceEntry { call_site := ⟨bl, bh, 2⟩, callee := btCallee 3 }]) ++
      (if source_equal ⟨cl, ch, 1⟩ ⟨al, ah, 3⟩ then [] else
        [mkBacktraceEntry { call_site := ⟨cl, ch, 1⟩, callee := btCallee 2 }]) ++
      (if source_equal ⟨dl, dh, 0⟩ ⟨bl, bh, 2⟩ then [] else
        [mkBacktraceEntry { call_site := ⟨dl, dh, 0⟩, callee := btCallee 1 }]) := by
  show btAux (btStore ⟨bl, bh, 2⟩ ⟨cl, ch, 1⟩ ⟨dl, dh, 0⟩) (1 + 1 + 1 + 1 + 1)
    DUMMY_SP ⟨al, ah, 3⟩ = _
  rw [btAux_step_some (btStore ⟨bl, bh, 2⟩ ⟨cl, ch, 1⟩ ⟨dl, dh, 0⟩) (1 + 1 + 1 + 1)
    DUMMY_SP ⟨al, ah, 3⟩ { call_site := ⟨bl, bh, 2⟩, callee := btCallee 3 } rfl]
  rw [btAux_step_some (btStore ⟨bl, bh, 2⟩ ⟨cl, ch, 1⟩ ⟨dl, dh, 0⟩) (1 + 1 + 1)
    ⟨al, ah, 3⟩ ⟨bl, bh, 2⟩ { call_site := ⟨cl, ch, 1⟩, callee := btCallee 2 } rfl]
  rw [btAux_step_some (btStore ⟨bl, bh, 2⟩ ⟨cl, ch, 1⟩ ⟨dl, dh, 0⟩) (1 + 1)
    ⟨bl, bh, 2⟩ ⟨cl, ch, 1⟩ { call_site := ⟨dl, dh, 0⟩, callee := btCallee 1 } rfl]
  rw [btAux_step_none (btStore ⟨bl, bh, 2⟩ ⟨cl, ch, 1⟩ ⟨dl, dh, 0⟩) 1
    ⟨cl, ch, 1⟩ ⟨dl, dh, 0⟩ rfl]
  split_ifs <;> simp

/-- Claim C7: `is_descendant_of` is reflexive for every mark; in a
well-formed store it returns true exactly when the ancestor occurs on the
walked parent chain (so root, always reached, matches only when it is the
ancestor — otherwise passing root yields false); every valid mark is a
descendant of root; and a mark freshly created with `fresh(parent)` is a
descendant of its parent and of root. -/
theorem C7_is_descendant :
    (∀ (st : HygieneData) (m : Nat), is_descendant_of st m m = true) ∧
    (∀ (st : HygieneData), marksWF st → ∀ s, s < st.marks.length → ∀ a,
       (is_descendant_of st s a = true ↔ a ∈ ancestorChain st s)) ∧
    (∀ (st : HygieneData), marksWF st → ∀ s, s < st.marks.length →
       is_descendant_of st s Mark.root = true) ∧
    (∀ (st : HygieneData) (parent : Nat), marksWF st → parent < st.marks.length →
       is_descendant_of (Mark.fresh st parent).2 (Mark.fresh st parent).1 parent = true ∧
       is_descendant_of (Mark.fresh st parent).2 (Mark.fresh st parent).1 Mark.root
         = true) := by
  refine ⟨desc_refl, ?_, ?_, ?_⟩
  · intro st hw s hs a
    exact desc_iff_chain st hw s hs a
  · intro st hw s hs
    exact desc_root st hw s hs
  · intro st parent hw hp
    have hlen : 0 < st.marks.length := hw.1
    constructor
    · have hfst : (Mark.fresh st parent).1 = st.marks.length := rfl
      rw [hfst, is_descendant_of, isDescFuel,
        if_neg (by omega : ¬st.marks.length = parent),
        if_neg (by omega : ¬st.marks.length = 0)]
      have hm : (getMark (Mark.fresh st parent).2 st.marks.length).parent = parent := by
        simp [Mark.fresh, getMark, getD_append_self]
      rw [hm]
      obtain ⟨k, hk⟩ : ∃ k, st.marks.length = k + 1 := ⟨st.marks.length - 1, by omega⟩
      rw [hk, isDescFuel, if_pos rfl]
      rfl
    · have hw' := marksWF_fresh st hw parent hp
      have hlt : (Mark.fresh st parent).1 < (Mark.fresh st parent).2.marks.length := by
        simp [Mark.fresh]
      exact desc_root _ hw' _ hlt

/-- Claim C7 witness: the four parts of the theorem applied in the
concrete store `adjStore` (and a `fresh` call on it), with every
hypothesis discharged. -/
theorem C7_witness :
    is_descendant_of adjStore 2 2 = true ∧
      (is_descendant_of adjStore 2 0 = true ↔ 0 ∈ ancestorChain adjStore 2) ∧
      is_descendant_of adjStore 2 Mark.root = true ∧
      is_descendant_of (Mark.fresh adjStore 1).2 (Mark.fresh adjStore 1).1 1 = true :=
  ⟨C7_is_descendant.1 adjStore 2,
   C7_is_descendant.2.1 adjStore (by decide) 2 (by decide) 0,
   C7_is_descendant.2.2.1 adjStore (by decide) 2 (by decide),
   (C7_is_descendant.2.2.2 adjStore 1 (by decide) (by decide)).1⟩

/-- Claim C8: every `SyntaxContext` serializes as the unit value, and the
serialize/deserialize round trip maps every context — empty or not — to
the empty context. -/
theorem C8_serde_roundtrip :
    ∀ c : Nat, serializeSyntaxContext c = SerValue.unit ∧
      deserializeSyntaxContext (serializeSyntaxContext c) =
        Except.ok SyntaxContext.empty :=
  fun _ => ⟨rfl, rfl⟩

/-- Claim C9: `to_ident (from_ident ident)` yields an identifier whose
context equals `ident.ctxt` (the gensym map records the association and
`to_ident` looks it up), and for a symbol never registered, `to_ident`
yields an identifier with the empty context. -/
theorem C9_gensym_roundtrip :
    (∀ (st : HygieneData) (it : Interner) (ident : Ident),
       (to_ident (from_ident st it ident).2.2 (from_ident st it ident).2.1
         (from_ident st it ident).1).ctxt = ident.ctxt) ∧
    (∀ (st : HygieneData) (it : Interner) (s : Nat),
       lookupPairs st.gensym_to_ctxt s = none →
       (to_ident st it s).ctxt = SyntaxContext.empty) := by
  constructor
  · intro st it ident
    simp [to_ident, from_ident, lookupPairs]
  · intro st it s h
    rw [to_ident, h]

/-- Claim C9 witness: the unregistered-symbol part of the theorem applied
to the fresh store and symbol `5`, with the lookup hypothesis
discharged. -/
theorem C9_witness :
    lookupPairs HygieneData.new.gensym_to_ctxt 5 = none ∧
      (to_ident HygieneData.new { strings := [] } 5).ctxt = SyntaxContext.empty :=
  ⟨rfl, C9_gensym_roundtrip.2 HygieneData.new { strings := [] } 5 rfl⟩

/-- Claim C10: `glob_adjust` is not atomic on failure — in the
well-formed store `gaStore`, adjusting the one-mark context `[mA]` against
glob context `[mB]` removes `mA` from `self`, then fails because the
stripped marks disagree, returning `None` with `self` left mutated (the
empty context, not restored to `[mA]`). -/
theorem C10_glob_adjust_not_atomic :
    ∃ (st : HygieneData) (self expansion glob c' : Nat),
      marksWF st ∧ markingsWF st ∧
        glob_adjust st self expansion glob = (none, c') ∧ c' ≠ self :=
  ⟨gaStore, 1, 0, 2, 0, by decide, by decide, by decide, by decide⟩

end Garando
